import Mathlib

/-!
Shallow embedding of the manifest core of `cargo-edit` (src/manifest.rs):
the upward Cargo.toml search, the toml document model, dependency-table
insertion, and the rewrite-on-save serialization.

Modelling conventions:
* toml values are the inductive `Value`; a toml table (`BTreeMap<String,
  toml::Value>` in the source) is an association list of key/value pairs,
  with `tableInsert` keeping keys sorted and unique exactly as a BTreeMap
  does (replace on equal key, ordered by `<` on strings).
* Filesystem paths are component lists with the innermost component FIRST,
  so that `Path::parent` is `List.tail` and `dir.join(name)` is
  `name :: dir`; the filesystem root is `[]`.
* The filesystem itself is a `FileSystem` record: `meta p` is `none` when
  `fs::metadata(p)` fails (path absent, a not-found I/O error) and
  `some isFile` when the path exists; `content p` is the file's text.
* File contents are `List Char`; a `Seek(Start 0)` followed by a write of
  `s` over previous content `prev` yields `s ++ prev.drop s.length`
  (no truncation, exactly the handle semantics the source relies on).
* The external toml parser is abstract: a `ParserOutcome` records what
  `Parser::parse` returned (`result`) and the accumulated `errors` vector;
  the `Display` serializer of the toml crate is an abstract parameter
  `display : Value → List Char`.
* Rust panics (here: `Option::unwrap` on `None`) are the `panicked`
  constructor of `RunResult`.
-/

/-! ## Error taxonomy -/

/-- Catch-all structural error (`ManifestError` in the source). -/
structure ManifestError where
deriving DecidableEq

/-- The only I/O failure the modelled scenarios need: `fs::metadata` on an
absent path. -/
inductive IOErrorKind where
  | notFound
deriving DecidableEq

/-- An error reported by the external toml parser (`ParserError` carries a
span and a description). -/
structure ParseError where
  lo : Nat
  hi : Nat
  desc : String
deriving DecidableEq

/-- The `Box<Error>` values that escape the core, split by provenance. -/
inductive CoreError where
  | structural
  | io : IOErrorKind → CoreError
  | parse : ParseError → CoreError
deriving DecidableEq

/-- Outcome of running a piece of code that may also panic. -/
inductive RunResult (α : Type) where
  | ok : α → RunResult α
  | err : CoreError → RunResult α
  | panicked

/-! ## Document model -/

/-- A toml value (the `toml::Value` enum); a table is an association list
standing for `BTreeMap<String, toml::Value>`. Floats are carried as their
source literal, which is all the core ever does with them. -/
inductive Value where
  | str : String → Value
  | int : Int → Value
  | float : String → Value
  | boolean : Bool → Value
  | datetime : String → Value
  | array : List Value → Value
  | table : List (String × Value) → Value

/-- Whether a value is the `Table` variant. -/
def Value.isTable : Value → Bool
  | .table _ => true
  | _ => false

/-- A crate dependency: `pub type Dependency = (String, toml::Value)`. -/
def Dependency : Type := String × Value

/-- BTreeMap lookup on the association list. -/
def tableLookup (k : String) : List (String × Value) → Option Value
  | [] => none
  | (k', v) :: rest => if k = k' then some v else tableLookup k rest

/-- BTreeMap insert: replace on an equal key, otherwise keep keys in
increasing order. -/
def tableInsert (k : String) (v : Value) : List (String × Value) → List (String × Value)
  | [] => [(k, v)]
  | (k', v') :: rest =>
    if k < k' then (k, v) :: (k', v') :: rest
    else if k = k' then (k, v) :: rest
    else (k', v') :: tableInsert k v rest

/-- BTreeMap remove: the removed value (if any) together with the remaining
map. -/
def tableRemove (k : String) : List (String × Value) → Option Value × List (String × Value)
  | [] => (none, [])
  | (k', v) :: rest =>
    if k = k' then (some v, rest)
    else
      let r := tableRemove k rest
      (r.1, (k', v) :: r.2)

/-- A Cargo manifest: its parsed toml data. -/
structure Manifest where
  data : List (String × Value)

/-! ## Dependency insertion (`insert_into_table`, `add_deps`) -/

/-- Embedding of `Manifest::insert_into_table`: `entry(table).or_insert`
creates an empty table when the key is absent; if the value sitting at the
key is a table the dependency is inserted into it, otherwise the call fails
with `ManifestError` (and, the key being already present, the document is
left as it was). Returns the resulting document together with the
`Result<(), ManifestError>`. -/
def Manifest.insert_into_table (m : Manifest) (tbl : String) (dep : Dependency) :
    Manifest × Except ManifestError Unit :=
  let data :=
    match tableLookup tbl m.data with
    | none => tableInsert tbl (Value.table []) m.data
    | some _ => m.data
  match tableLookup tbl data with
  | some (Value.table deps) =>
    (⟨tableInsert tbl (Value.table (tableInsert dep.1 dep.2 deps)) data⟩, .ok ())
  | _ => (⟨data⟩, .error ⟨⟩)

/-- Embedding of `Manifest::add_deps`: one `insert_into_table` per entry in
order; collecting into `Result` stops at the first error, leaving the
entries already applied in place. -/
def Manifest.add_deps (m : Manifest) (tbl : String) (deps : List Dependency) :
    Manifest × Except ManifestError Unit :=
  match deps with
  | [] => (m, .ok ())
  | d :: rest =>
    match Manifest.insert_into_table m tbl d with
    | (m', .ok ()) => Manifest.add_deps m' tbl rest
    | (m', .error e) => (m', .error e)

/-! ## Table lemmas -/

theorem tableInsert_tableInsert (k : String) (v v' : Value) (t : List (String × Value)) :
    tableInsert k v (tableInsert k v' t) = tableInsert k v t := by
  induction t with
  | nil =>
    simp [tableInsert, lt_irrefl]
  | cons hd tl ih =>
    obtain ⟨k', w⟩ := hd
    by_cases hlt : k < k'
    · simp [tableInsert, hlt, lt_irrefl]
    · by_cases heq : k = k'
      · simp [tableInsert, hlt, heq, lt_irrefl]
      · simp [tableInsert, hlt, heq, ih]

theorem tableLookup_tableInsert (k : String) (v : Value) (t : List (String × Value)) :
    tableLookup k (tableInsert k v t) = some v := by
  induction t with
  | nil => simp [tableInsert, tableLookup]
  | cons hd tl ih =>
    obtain ⟨k', w⟩ := hd
    by_cases hlt : k < k'
    · simp [tableInsert, hlt, tableLookup]
    · by_cases heq : k = k'
      · simp [tableInsert, hlt, heq, tableLookup]
      · simp [tableInsert, hlt, heq, tableLookup, ih]

theorem tableRemove_fst_of_lookup_some (k : String) (t : List (String × Value)) (v : Value)
    (h : tableLookup k t = some v) :
    (tableRemove k t).1 = some v := by
  induction t with
  | nil => simp [tableLookup] at h
  | cons hd tl ih =>
    obtain ⟨k', w⟩ := hd
    by_cases heq : k = k'
    · simp [tableRemove, heq]
      simpa [tableLookup, heq] using h
    · simp [tableLookup, heq] at h
      simp [tableRemove, heq, ih h]

theorem tableRemove_of_lookup_none (k : String) (t : List (String × Value))
    (h : tableLookup k t = none) :
    tableRemove k t = (none, t) := by
  induction t with
  | nil => simp [tableRemove]
  | cons hd tl ih =>
    obtain ⟨k', w⟩ := hd
    by_cases heq : k = k'
    · simp [tableLookup, heq] at h
    · simp [tableLookup, heq] at h
      simp [tableRemove, heq, ih h]

/-! ## Locator (`find`, `search`) -/

/-- Which well-known file the locator searches for. -/
inductive CargoFile where
  | config
  | lock

/-- The filename the locator joins onto each directory. -/
def cargoFileName : CargoFile → String
  | .config => "Cargo.toml"
  | .lock => "Cargo.lock"

/-- The filesystem a run sees. `meta p = none` means `fs::metadata(p)`
fails with a not-found I/O error; `meta p = some isFile` means the path
exists and `isFile` is `metadata.is_file()`. Paths are component lists,
innermost component first. -/
structure FileSystem where
  meta : List String → Option Bool
  content : List String → List Char

/-- Embedding of `search`: check `dir.join(target)`; on failure move to the
parent (the tail, in innermost-first representation) and recurse, failing
with `ManifestError` once the root (the empty path) has no parent. -/
def search (fs : FileSystem) (file : CargoFile) : List String → Except ManifestError (List String)
  | [] =>
    if (fs.meta [cargoFileName file]).isSome then .ok [cargoFileName file]
    else .error ⟨⟩
  | c :: parent =>
    if (fs.meta (cargoFileName file :: c :: parent)).isSome then
      .ok (cargoFileName file :: c :: parent)
    else search fs file parent

/-- The candidate paths whose existence `search` checks, starting from a
directory. Because the source builds the recursive result with the eager
`Result::or`, every ancestor up to the root is probed, each exactly once. -/
def searchChecked (file : CargoFile) : List String → List (List String)
  | [] => [[cargoFileName file]]
  | c :: parent => (cargoFileName file :: c :: parent) :: searchChecked file parent

/-- Embedding of `find`: an explicitly specified path is returned as-is when
`fs::metadata` says it is a file; when it exists but is not a file the
upward search starts there; when `fs::metadata` fails the `try!` propagates
that I/O error. With no specified path the search starts at `cwd` (the
process working directory, a parameter here). -/
def find (fs : FileSystem) (cwd : List String) (specified : Option (List String))
    (file : CargoFile) : Except CoreError (List String) :=
  match specified with
  | some path =>
    match fs.meta path with
    | none => .error (.io .notFound)
    | some isFile =>
      if isFile then .ok path
      else (search fs file path).mapError fun _ => .structural
  | none => (search fs file cwd).mapError fun _ => .structural

/-- Embedding of `Manifest::find_file`: locate via `find`, then open the
path read-write; opening an existing path succeeds, an absent one is a
not-found I/O error. -/
def Manifest.find_file (fs : FileSystem) (cwd : List String)
    (path : Option (List String)) : Except CoreError (List String) :=
  (find fs cwd path .config).bind fun p =>
    if (fs.meta p).isSome then .ok p else .error (.io .notFound)

/-! ## Parsing (`from_str`) and opening -/

/-- What one run of the external toml parser produced: the return value of
`Parser::parse` and the `errors` vector it accumulated. -/
structure ParserOutcome where
  result : Option (List (String × Value))
  errors : List ParseError

/-- The value `Vec::pop` returns: the last element, if any. -/
def vecPop : List ParseError → Option ParseError
  | [] => none
  | [e] => some e
  | _ :: e :: rest => vecPop (e :: rest)

/-- Embedding of `Manifest::from_str` on a parser outcome: a parsed document
becomes the manifest; otherwise `parser.errors.pop()` supplies the error and
`Option::unwrap` of it panics when the vector was empty. -/
def Manifest.from_str (out : ParserOutcome) : RunResult Manifest :=
  match out.result with
  | some data => .ok ⟨data⟩
  | none =>
    match vecPop out.errors with
    | some e => .err (.parse e)
    | none => .panicked

/-- Embedding of `Manifest::open` for the config file: find and open the
file, read its whole content, parse it. The parser is a parameter mapping
the text to its outcome. -/
def Manifest.openConfig (fs : FileSystem) (parser : List Char → ParserOutcome)
    (cwd : List String) (path : Option (List String)) : RunResult Manifest :=
  match Manifest.find_file fs cwd path with
  | .error e => .err e
  | .ok p => Manifest.from_str (parser (fs.content p))

/-! ## Serialization (`write_to_file`) -/

/-- One serialized section: the bracketed header line followed by the
primary table's body, followed by the display of everything that remains. -/
def fmtSection (display : Value → List Char) (header : String) (primary : Value)
    (rest : List (String × Value)) : List Char :=
  '[' :: header.toList ++ ']' :: '\n' :: [] ++ display primary ++ display (.table rest)

/-- The text `Manifest::write_to_file` writes: remove "package", or else
"project", from a clone of the data and emit it first; with neither present
the call fails with `ManifestError`. The toml `Display` serializer is the
abstract parameter `display`. -/
def serialize_content (display : Value → List Char) (m : Manifest) :
    Except ManifestError (List Char) :=
  let r := tableRemove "package" m.data
  match r.1 with
  | some data => .ok (fmtSection display "package" data r.2)
  | none =>
    let r' := tableRemove "project" m.data
    match r'.1 with
    | some data => .ok (fmtSection display "project" data r'.2)
    | none => .error ⟨⟩

/-- Embedding of `Manifest::write_to_file` as a file-content transformer:
seek to offset 0 and write the serialized text over the previous content.
Nothing truncates, so previous bytes past the written length survive. -/
def Manifest.write_to_file (display : Value → List Char) (m : Manifest)
    (prev : List Char) : Except ManifestError (List Char) :=
  (serialize_content display m).map fun s => s ++ prev.drop s.length

/-! ## Concrete instances shared by witnesses -/

/-- A manifest whose "dependencies" key already holds a scalar. -/
def exampleConflict : Manifest := ⟨[("dependencies", Value.str "oops")]⟩

/-- A manifest with a "package" primary section. -/
def examplePackage : Manifest := ⟨[("package", Value.table [("name", Value.str "x")])]⟩

/-- A manifest with neither "package" nor "project". -/
def exampleNoPrimary : Manifest := ⟨[("dependencies", Value.table [])]⟩

/-- A stand-in for the external toml serializer. -/
def displayNil : Value → List Char := fun _ => []

/-- A filesystem whose only entry is a manifest file at the root. -/
def fsOnlyRootManifest : FileSystem :=
  ⟨fun p => if p = ["Cargo.toml"] then some true else none, fun _ => []⟩

/-- A filesystem with a directory "a" holding the only manifest file. -/
def fsManifestInA : FileSystem :=
  ⟨fun p =>
    if p = ["a"] then some false
    else if p = ["Cargo.toml", "a"] then some true
    else none,
   fun _ => []⟩

/-- A completely empty filesystem. -/
def fsEmpty : FileSystem := ⟨fun _ => none, fun _ => []⟩

/-- A stand-in parser, never consulted by the scenarios that use it. -/
def parserStub : List Char → ParserOutcome := fun _ => ⟨none, []⟩

/-! ## Parser-error bookkeeping -/

theorem vecPop_of_ne_nil (es : List ParseError) (h : es ≠ []) :
    ∃ e, vecPop es = some e := by
  induction es with
  | nil => exact absurd rfl h
  | cons e rest ih =>
    cases rest with
    | nil => exact ⟨e, rfl⟩
    | cons e' rest' =>
      obtain ⟨x, hx⟩ := ih (List.cons_ne_nil e' rest')
      exact ⟨x, by rw [vecPop]; exact hx⟩

theorem vecPop_concat (es : List ParseError) (e : ParseError) :
    vecPop (es ++ [e]) = some e := by
  induction es with
  | nil => rfl
  | cons a rest ih =>
    cases hrest : rest ++ [e] with
    | nil => exact absurd hrest (by simp)
    | cons b tl =>
      show vecPop (a :: rest ++ [e]) = some e
      rw [List.cons_append, hrest, vecPop, ← hrest, ih]

/-! ## C10 -/

/-- C10: `from_str` unwraps the popped parser error without a guard — it
never panics provided a failing parse always leaves at least one reported
error, and it does panic on a (hypothetical) outcome where the parser
returns no document while reporting zero errors. -/
theorem claim_C10_from_str_unwrap (out : ParserOutcome) :
    ((out.result = none → out.errors ≠ []) → Manifest.from_str out ≠ .panicked)
    ∧ (out.result = none → out.errors = [] → Manifest.from_str out = .panicked) := by
  constructor
  · intro hpre
    cases hres : out.result with
    | some data => simp [Manifest.from_str, hres]
    | none =>
      obtain ⟨e, he⟩ := vecPop_of_ne_nil out.errors (hpre hres)
      simp [Manifest.from_str, hres, he]
  · intro hres herr
    simp [Manifest.from_str, hres, herr, vecPop]

/-- C10 witness: the parser outcome with no document and no errors makes
`from_str` panic. -/
theorem claim_C10_witness : Manifest.from_str ⟨none, []⟩ = .panicked :=
  (claim_C10_from_str_unwrap ⟨none, []⟩).2 rfl rfl

/-! ## C1 -/

/-- C1 counterexample: on a parse failure whose error vector holds two
distinct errors, `from_str` propagates the second (last) one, not the first
— `Vec::pop` takes from the back. -/
theorem claim_C1_counterexample :
    Manifest.from_str ⟨none, [⟨0, 0, "a"⟩, ⟨1, 1, "b"⟩]⟩
      = .err (.parse ⟨1, 1, "b"⟩)
    ∧ (⟨1, 1, "b"⟩ : ParseError) ≠ ⟨0, 0, "a"⟩ :=
  ⟨rfl, by decide⟩

/-- C1 (amended): for every parser outcome with no document, `from_str`
returns the LAST error the parser reported, wrapped as the propagated
failure, and never an (empty or any other) document. -/
theorem claim_C1_from_str_last_error (out : ParserOutcome) (es : List ParseError)
    (e : ParseError) (hres : out.result = none) (herr : out.errors = es ++ [e]) :
    Manifest.from_str out = .err (.parse e)
    ∧ ∀ m, Manifest.from_str out ≠ .ok m := by
  have hpop : vecPop out.errors = some e := by rw [herr]; exact vecPop_concat es e
  constructor
  · simp [Manifest.from_str, hres, hpop]
  · intro m
    simp [Manifest.from_str, hres, hpop]

/-- C1 witness: a parse failure with a single reported error propagates that
error. -/
theorem claim_C1_witness :
    Manifest.from_str ⟨none, [⟨7, 9, "expected a value"⟩]⟩
      = .err (.parse ⟨7, 9, "expected a value"⟩) :=
  (claim_C1_from_str_last_error ⟨none, [⟨7, 9, "expected a value"⟩]⟩ []
    ⟨7, 9, "expected a value"⟩ rfl rfl).1

/-! ## C5 -/

/-- C5: when the top-level value at the table name exists and is not a
table, `insert_into_table` fails with the structural error and returns the
document exactly as it was — the conflicting value is neither coerced nor
overwritten and no other key changes. -/
theorem claim_C5_insert_conflict (m : Manifest) (tbl : String) (dep : Dependency)
    (v : Value) (hv : tableLookup tbl m.data = some v) (hnt : v.isTable = false) :
    Manifest.insert_into_table m tbl dep = (m, .error ⟨⟩) := by
  cases v with
  | table deps => simp [Value.isTable] at hnt
  | str s => simp [Manifest.insert_into_table, hv]
  | int n => simp [Manifest.insert_into_table, hv]
  | float f => simp [Manifest.insert_into_table, hv]
  | boolean b => simp [Manifest.insert_into_table, hv]
  | datetime d => simp [Manifest.insert_into_table, hv]
  | array a => simp [Manifest.insert_into_table, hv]

/-- C5 witness: inserting into a key that holds a string fails and leaves
the manifest untouched. -/
theorem claim_C5_witness :
    Manifest.insert_into_table exampleConflict "dependencies" ("serde", Value.str "1.0")
      = (exampleConflict, .error ⟨⟩) :=
  claim_C5_insert_conflict exampleConflict "dependencies" ("serde", Value.str "1.0")
    (Value.str "oops") rfl rfl

/-! ## C3 -/

theorem insert_into_table_error_unchanged (m : Manifest) (tbl : String) (d : Dependency)
    (m' : Manifest) (e : ManifestError)
    (h : Manifest.insert_into_table m tbl d = (m', .error e)) : m' = m := by
  cases hl : tableLookup tbl m.data with
  | none =>
    exfalso
    simp [Manifest.insert_into_table, hl, tableLookup_tableInsert] at h
  | some v =>
    cases v with
    | table deps => simp [Manifest.insert_into_table, hl] at h
    | str s => simp [Manifest.insert_into_table, hl] at h; exact h.symm
    | int n => simp [Manifest.insert_into_table, hl] at h; exact h.symm
    | float f => simp [Manifest.insert_into_table, hl] at h; exact h.symm
    | boolean b => simp [Manifest.insert_into_table, hl] at h; exact h.symm
    | datetime dt => simp [Manifest.insert_into_table, hl] at h; exact h.symm
    | array a => simp [Manifest.insert_into_table, hl] at h; exact h.symm

/-- C3: `add_deps` is fail-fast without rollback — if applying the first k
entries succeeds and produced the document m', and inserting entry k fails,
the whole call returns that error with the document exactly as the first k
entries left it (entry k and everything after it contribute nothing). -/
theorem claim_C3_add_deps_fail_fast (m : Manifest) (tbl : String)
    (deps : List Dependency) (k : Nat) (m' m'' : Manifest) (e : ManifestError)
    (hk : k < deps.length)
    (hpre : Manifest.add_deps m tbl (deps.take k) = (m', .ok ()))
    (hfail : Manifest.insert_into_table m' tbl deps[k] = (m'', .error e)) :
    Manifest.add_deps m tbl deps = (m'', .error e) ∧ m'' = m' := by
  refine ⟨?_, insert_into_table_error_unchanged m' tbl deps[k] m'' e hfail⟩
  induction k generalizing m deps with
  | zero =>
    cases deps with
    | nil => exact absurd hk (by simp)
    | cons d rest =>
      simp [Manifest.add_deps] at hpre
      simp at hfail
      rw [← hpre] at hfail
      rw [Manifest.add_deps, hfail]
  | succ k ih =>
    cases deps with
    | nil => exact absurd hk (by simp)
    | cons d rest =>
      rw [List.take_succ_cons] at hpre
      rcases hstep : Manifest.insert_into_table m tbl d with ⟨m1, r⟩
      cases r with
      | error e' =>
        rw [Manifest.add_deps, hstep] at hpre
        exact absurd hpre (by simp)
      | ok u =>
        cases u
        rw [Manifest.add_deps, hstep] at hpre
        rw [Manifest.add_deps, hstep]
        have hk' : k < rest.length := by simpa using hk
        have hfail' : Manifest.insert_into_table m' tbl rest[k] = (m'', .error e) := by
          simpa using hfail
        exact ih m1 rest hk' hpre hfail'

/-- C3 witness: with a scalar already sitting at the table name, the very
first entry fails, zero insertions are applied and the original document is
returned with the error. -/
theorem claim_C3_witness :
    Manifest.add_deps exampleConflict "dependencies" [("serde", Value.str "1.0")]
      = (exampleConflict, .error ⟨⟩) :=
  (claim_C3_add_deps_fail_fast exampleConflict "dependencies"
    [("serde", Value.str "1.0")] 0 exampleConflict exampleConflict ⟨⟩
    (by decide) rfl rfl).1

/-! ## C9 -/

theorem insert_into_table_idem (m : Manifest) (tbl : String) (d : Dependency) :
    Manifest.insert_into_table (Manifest.insert_into_table m tbl d).1 tbl d
      = Manifest.insert_into_table m tbl d := by
  cases hl : tableLookup tbl m.data with
  | none =>
    simp only [Manifest.insert_into_table, hl, tableLookup_tableInsert,
      tableInsert_tableInsert]
  | some v =>
    cases v with
    | table deps =>
      simp only [Manifest.insert_into_table, hl, tableLookup_tableInsert,
        tableInsert_tableInsert]
    | str s => simp [Manifest.insert_into_table, hl]
    | int n => simp [Manifest.insert_into_table, hl]
    | float f => simp [Manifest.insert_into_table, hl]
    | boolean b => simp [Manifest.insert_into_table, hl]
    | datetime dt => simp [Manifest.insert_into_table, hl]
    | array a => simp [Manifest.insert_into_table, hl]

/-- C9: inserting the same (table, name, spec) twice — within one
`add_deps` call or across two calls — yields the same document as
inserting it once. -/
theorem claim_C9_add_deps_idempotent (m : Manifest) (tbl : String) (d : Dependency) :
    (Manifest.add_deps m tbl [d, d]).1 = (Manifest.add_deps m tbl [d]).1
    ∧ (Manifest.add_deps (Manifest.add_deps m tbl [d]).1 tbl [d]).1
        = (Manifest.add_deps m tbl [d]).1 := by
  have hidem := insert_into_table_idem m tbl d
  rcases h : Manifest.insert_into_table m tbl d with ⟨m1, r⟩
  cases r with
  | ok u =>
    cases u
    have h2 : Manifest.insert_into_table m1 tbl d = (m1, .ok ()) := by
      rw [h] at hidem
      exact hidem
    constructor
    · simp [Manifest.add_deps, h, h2]
    · simp [Manifest.add_deps, h, h2]
  | error e =>
    have hm1 : m1 = m := insert_into_table_error_unchanged m tbl d m1 e h
    subst hm1
    constructor
    · simp [Manifest.add_deps, h]
    · simp [Manifest.add_deps, h]

/-! ## C4 -/

/-- C4: serialization removes "package" if present, else "project", else
fails with the structural error; on success the output is the removed
primary section — bracketed header line then its body — followed by the
display of every remaining top-level key, so the primary section comes
first whatever its position in the in-memory mapping. -/
theorem claim_C4_primary_section_first (display : Value → List Char) (m : Manifest) :
    (∀ v, tableLookup "package" m.data = some v →
      serialize_content display m
        = .ok (fmtSection display "package" v (tableRemove "package" m.data).2))
    ∧ (tableLookup "package" m.data = none →
        ∀ v, tableLookup "project" m.data = some v →
          serialize_content display m
            = .ok (fmtSection display "project" v (tableRemove "project" m.data).2))
    ∧ (tableLookup "package" m.data = none → tableLookup "project" m.data = none →
        serialize_content display m = .error ⟨⟩)
    ∧ (∀ out, serialize_content display m = .ok out →
        ∃ h rest, (h = "package" ∨ h = "project")
          ∧ out = '[' :: h.toList ++ ']' :: '\n' :: [] ++ rest) := by
  refine ⟨?_, ?_, ?_, ?_⟩
  · intro v hv
    have h1 := tableRemove_fst_of_lookup_some "package" m.data v hv
    simp [serialize_content, h1]
  · intro hnone v hv
    have h0 := tableRemove_of_lookup_none "package" m.data hnone
    have h1 := tableRemove_fst_of_lookup_some "project" m.data v hv
    simp [serialize_content, h0, h1]
  · intro hp hq
    have h0 := tableRemove_of_lookup_none "package" m.data hp
    have h1 := tableRemove_of_lookup_none "project" m.data hq
    simp [serialize_content, h0, h1]
  · intro out hout
    cases hp : (tableRemove "package" m.data).1 with
    | some v =>
      refine ⟨"package", display v ++ display (.table (tableRemove "package" m.data).2),
        Or.inl rfl, ?_⟩
      simp [serialize_content, hp] at hout
      simp [← hout, fmtSection]
    | none =>
      cases hq : (tableRemove "project" m.data).1 with
      | some v =>
        refine ⟨"project", display v ++ display (.table (tableRemove "project" m.data).2),
          Or.inr rfl, ?_⟩
        simp [serialize_content, hp, hq] at hout
        simp [← hout, fmtSection]
      | none =>
        simp [serialize_content, hp, hq] at hout

/-- C4 witness: a manifest holding only a "package" table serializes to the
bracketed package header followed by its body; one with neither primary key
fails with the structural error. -/
theorem claim_C4_witness :
    serialize_content displayNil examplePackage
      = .ok (fmtSection displayNil "package" (Value.table [("name", Value.str "x")])
          (tableRemove "package" examplePackage.data).2)
    ∧ serialize_content displayNil exampleNoPrimary = .error ⟨⟩ :=
  ⟨(claim_C4_primary_section_first displayNil examplePackage).1
      (Value.table [("name", Value.str "x")]) rfl,
   (claim_C4_primary_section_first displayNil exampleNoPrimary).2.2.1 rfl rfl⟩

/-! ## C6 -/

/-- C6: `write_to_file` writes the serialized text at offset 0 over the
previous content and truncates nothing — whenever the previous content is
at least as long as the new text, the file keeps its old length and every
byte beyond the new text's length is exactly the old byte. -/
theorem claim_C6_write_no_truncate (display : Value → List Char) (m : Manifest)
    (prev s : List Char) (hs : serialize_content display m = .ok s) :
    Manifest.write_to_file display m prev = .ok (s ++ prev.drop s.length)
    ∧ (s.length ≤ prev.length →
        (s ++ prev.drop s.length).length = prev.length
        ∧ (s ++ prev.drop s.length).drop s.length = prev.drop s.length) := by
  refine ⟨by simp [Manifest.write_to_file, hs, Except.map], fun hle => ⟨?_, ?_⟩⟩
  · simp only [List.length_append, List.length_drop]
    omega
  · rw [List.drop_left]

/-- C6 witness: writing a ten-character serialization over a sixteen-byte
file keeps the six trailing bytes and the old length. -/
theorem claim_C6_witness :
    Manifest.write_to_file displayNil examplePackage ("ABCDEFGHIJKLMNOP".toList)
      = .ok ("[package]\n".toList
          ++ ("ABCDEFGHIJKLMNOP".toList).drop ("[package]\n".toList).length)
    ∧ (("[package]\n".toList).length ≤ ("ABCDEFGHIJKLMNOP".toList).length →
        ("[package]\n".toList
            ++ ("ABCDEFGHIJKLMNOP".toList).drop ("[package]\n".toList).length).length
          = ("ABCDEFGHIJKLMNOP".toList).length
        ∧ ("[package]\n".toList
            ++ ("ABCDEFGHIJKLMNOP".toList).drop ("[package]\n".toList).length).drop
              ("[package]\n".toList).length
          = ("ABCDEFGHIJKLMNOP".toList).drop ("[package]\n".toList).length) :=
  claim_C6_write_no_truncate displayNil examplePackage ("ABCDEFGHIJKLMNOP".toList)
    ("[package]\n".toList) rfl

/-! ## C2 -/

/-- C2 counterexample: the specified path "a/b" does not exist, and a
manifest would be found by searching upward from it, yet `find` returns the
propagated not-found I/O error instead of performing (and returning the
result of) the upward search. -/
theorem claim_C2_counterexample :
    find fsOnlyRootManifest [] (some ["b", "a"]) .config = .error (.io .notFound)
    ∧ search fsOnlyRootManifest .config ["b", "a"] = .ok ["Cargo.toml"]
    ∧ (Except.error (CoreError.io .notFound) : Except CoreError (List String))
        ≠ .ok ["Cargo.toml"] :=
  ⟨rfl, rfl, fun h => Except.noConfusion h⟩

/-- C2 (amended): a specified path that exists but is not a regular file
starts the upward search there; a specified path on which `fs::metadata`
fails makes `find` fail immediately with that propagated I/O error. -/
theorem claim_C2_find_specified (fs : FileSystem) (cwd path : List String)
    (file : CargoFile) :
    (fs.meta path = some false →
      find fs cwd (some path) file
        = (search fs file path).mapError fun _ => .structural)
    ∧ (fs.meta path = none →
        find fs cwd (some path) file = .error (.io .notFound)) := by
  constructor
  · intro h
    simp [find, h]
  · intro h
    simp [find, h]

/-- C2 witness: a specified directory "a" leads to the upward search from
"a", which finds the manifest inside it; a specified absent path yields the
not-found I/O error. -/
theorem claim_C2_witness :
    find fsManifestInA [] (some ["a"]) .config
      = (search fsManifestInA .config ["a"]).mapError (fun _ => .structural)
    ∧ find fsEmpty [] (some ["b", "a"]) .config = .error (.io .notFound) :=
  ⟨(claim_C2_find_specified fsManifestInA [] ["a"] .config).1 rfl,
   (claim_C2_find_specified fsEmpty [] ["b", "a"] .config).2 rfl⟩

/-! ## C7 -/

theorem search_not_found (fs : FileSystem) (file : CargoFile) (dir : List String)
    (h : ∀ a, a <:+ dir → fs.meta (cargoFileName file :: a) = none) :
    search fs file dir = .error ⟨⟩ := by
  induction dir with
  | nil =>
    have h0 := h [] (List.nil_suffix)
    simp [search, h0]
  | cons c parent ih =>
    have h0 := h (c :: parent) (List.suffix_refl _)
    have hrec := ih fun a ha => h a (ha.trans (List.suffix_cons c parent))
    simp [search, h0, hrec]

/-- C7: when no directory from the start up to the filesystem root contains
the target file, the upward search fails with the structural error, and
`open` with no specified path fails with the structural error rather than
an I/O error. -/
theorem claim_C7_not_found_structural (fs : FileSystem)
    (parser : List Char → ParserOutcome) (cwd : List String)
    (h : ∀ a, a <:+ cwd → fs.meta (cargoFileName .config :: a) = none) :
    search fs .config cwd = .error ⟨⟩
    ∧ Manifest.openConfig fs parser cwd none = .err .structural := by
  have hs := search_not_found fs .config cwd h
  refine ⟨hs, ?_⟩
  simp [Manifest.openConfig, Manifest.find_file, find, hs, Except.mapError, Except.bind]

/-- C7 witness: on an entirely empty filesystem, searching from a one-level
directory fails structurally and so does opening with no path. -/
theorem claim_C7_witness :
    search fsEmpty .config ["home"] = .error ⟨⟩
    ∧ Manifest.openConfig fsEmpty parserStub ["home"] none = .err .structural :=
  claim_C7_not_found_structural fsEmpty parserStub ["home"] fun _ _ => rfl

/-! ## C8 -/

theorem search_found_at_depth (fs : FileSystem) (file : CargoFile)
    (dir : List String) (k : Nat) (hk : k ≤ dir.length)
    (hfound : (fs.meta (cargoFileName file :: dir.drop k)).isSome)
    (hnone : ∀ j, j < k → fs.meta (cargoFileName file :: dir.drop j) = none) :
    search fs file dir = .ok (cargoFileName file :: dir.drop k) := by
  induction dir generalizing k with
  | nil =>
    have hk0 : k = 0 := Nat.le_zero.mp hk
    subst hk0
    simp only [List.drop_nil] at hfound ⊢
    simp [search, hfound]
  | cons c parent ih =>
    cases k with
    | zero =>
      simp only [List.drop_zero] at hfound ⊢
      simp [search, hfound]
    | succ k =>
      have h0 : fs.meta (cargoFileName file :: c :: parent) = none := by
        simpa using hnone 0 (Nat.succ_pos k)
      have hk' : k ≤ parent.length := Nat.succ_le_succ_iff.mp (by simpa using hk)
      have hfound' : (fs.meta (cargoFileName file :: parent.drop k)).isSome := by
        simpa using hfound
      have hnone' : ∀ j, j < k → fs.meta (cargoFileName file :: parent.drop j) = none := by
        intro j hj
        simpa using hnone (j + 1) (Nat.succ_lt_succ hj)
      simp [search, h0, ih k hk' hfound' hnone']

theorem searchChecked_ancestors (file : CargoFile) (dir : List String) :
    ∀ p ∈ searchChecked file dir, ∃ a, a <:+ dir ∧ p = cargoFileName file :: a := by
  induction dir with
  | nil =>
    intro p hp
    simp [searchChecked] at hp
    exact ⟨[], List.nil_suffix, hp⟩
  | cons c parent ih =>
    intro p hp
    simp only [searchChecked, List.mem_cons] at hp
    cases hp with
    | inl h => exact ⟨c :: parent, List.suffix_refl _, h⟩
    | inr h =>
      obtain ⟨a, ha, hpa⟩ := ih p h
      exact ⟨a, ha.trans (List.suffix_cons c parent), hpa⟩

/-- C8: with the target file present at ancestor depth k of the starting
directory and at no nearer ancestor, the upward search returns exactly that
ancestor's file, for any k up to the root; and every path the search probes
is an ancestor's candidate file — it never descends into subdirectories or
siblings. -/
theorem claim_C8_search_ancestor_depth (fs : FileSystem) (file : CargoFile)
    (dir : List String) (k : Nat) (hk : k ≤ dir.length)
    (hfound : (fs.meta (cargoFileName file :: dir.drop k)).isSome)
    (hnone : ∀ j, j < k → fs.meta (cargoFileName file :: dir.drop j) = none) :
    search fs file dir = .ok (cargoFileName file :: dir.drop k)
    ∧ ∀ p ∈ searchChecked file dir, ∃ a, a <:+ dir ∧ p = cargoFileName file :: a :=
  ⟨search_found_at_depth fs file dir k hk hfound hnone,
   searchChecked_ancestors file dir⟩

/-- C8 witness: the manifest sits one level up ("a/Cargo.toml") from the
starting directory "a/b"; the search skips the missing "a/b/Cargo.toml" and
returns the parent's file. -/
theorem claim_C8_witness :
    search fsManifestInA .config ["b", "a"] = .ok ["Cargo.toml", "a"] :=
  (claim_C8_search_ancestor_depth fsManifestInA .config ["b", "a"] 1
    (by decide) rfl (by decide)).1
